import Mathlib

/-!
Verification of the SNLI dataset-loading pipeline of the notebook
15.4.ipynb (natural language inference and its dataset).  Strings are
modelled as lists of characters, the lines of an input file as a list of
such strings, and a Python list comprehension whose body can raise an
IndexError as an Option-valued computation.
-/

namespace SNLI

/-- ASCII whitespace: the character class matched by the regex class
backslash-s in extract_text and by Python str.strip and str.split on this
corpus. -/
def isSpaceChar (c : Char) : Bool :=
  c == ' ' || c == '\t' || c == '\n' || c == '\r' ||
    c == Char.ofNat 11 || c == Char.ofNat 12

/-- State of the whitespace-collapsing scan: no pending whitespace, one
pending whitespace character, or a pending run of two or more. -/
inductive WSState where
  | none : WSState
  | one (c : Char) : WSState
  | many : WSState

/-- Flush the pending whitespace of the scan: a run of two or more
whitespace characters becomes a single space, a single whitespace
character is kept as it is. -/
def WSState.flush : WSState → List Char
  | .none => []
  | .one c => [c]
  | .many => [' ']

/-- Scan of the regex substitution in extract_text that replaces every
run of two or more whitespace characters by one space. -/
def collapseAux : List Char → WSState → List Char
  | [], st => st.flush
  | c :: rest, st =>
    if isSpaceChar c then
      match st with
      | .none => collapseAux rest (.one c)
      | _ => collapseAux rest .many
    else
      st.flush ++ c :: collapseAux rest .none

/-- The second substitution of extract_text: every run of two or more
whitespace characters is replaced by a single space. -/
def collapseWS (s : List Char) : List Char := collapseAux s .none

/-- Python str.strip: remove leading and trailing whitespace. -/
def stripWS (s : List Char) : List Char :=
  ((s.dropWhile isSpaceChar).reverse.dropWhile isSpaceChar).reverse

/-- The helper extract_text inside read_snli: delete every opening
parenthesis, delete every closing parenthesis, replace every run of two
or more consecutive whitespace characters by a single space, and strip
leading and trailing whitespace. -/
def extract_text (s : List Char) : List Char :=
  stripWS (collapseWS ((s.filter (fun c => c != '(')).filter (fun c => c != ')')))

/-- Python str.split on the tab character: the fields between tab
characters, empty fields kept, always at least one field. -/
def splitTab : List Char → List (List Char)
  | [] => [[]]
  | c :: rest =>
    if c = '\t' then [] :: splitTab rest
    else
      match splitTab rest with
      | [] => [[c]]
      | f :: fs => (c :: f) :: fs

/-- The label_set dictionary of read_snli: entailment is encoded as 0,
contradiction as 1 and neutral as 2; any other label is absent. -/
def labelSet (s : List Char) : Option Nat :=
  if s = "entailment".toList then some 0
  else if s = "contradiction".toList then some 1
  else if s = "neutral".toList then some 2
  else none

/-- A Python list comprehension whose body can raise: the first element
on which the body fails aborts the whole computation. -/
def pyMap (f : α → Option β) : List α → Option (List β)
  | [] => some []
  | a :: l =>
    match f a with
    | Option.none => Option.none
    | some b =>
      match pyMap f l with
      | Option.none => Option.none
      | some bs => some (b :: bs)

/-- The rows of read_snli that survive the label filter: every line after
the header line, split on tabs, whose first field is a recognized
label. -/
def keptRows (lines : List (List Char)) : List (List (List Char)) :=
  ((lines.drop 1).map splitTab).filter (fun row => (labelSet (row.headD [])).isSome)

/-- read_snli on the list of lines of the input file: skip the first
(header) line, split each remaining line on tabs, keep the rows whose
first field is a recognized label, and return the cleaned second fields,
the cleaned third fields and the encoded labels.  A kept row that lacks a
second or a third field makes the whole call fail, which models the
IndexError raised by the corresponding list comprehension. -/
def read_snli (lines : List (List Char)) :
    Option (List (List Char) × List (List Char) × List Nat) :=
  match pyMap (fun row => (row[1]?).map extract_text) (keptRows lines),
      pyMap (fun row => (row[2]?).map extract_text) (keptRows lines),
      pyMap (fun row => labelSet (row.headD [])) (keptRows lines) with
  | some premises, some hypotheses, some labels => some (premises, hypotheses, labels)
  | _, _, _ => Option.none

example :
    read_snli
      ["gold\ts1\ts2".toList,
       "entailment\tA person on a horse jumps ( over ) a broken down airplane .\tA person is outdoors , on a horse .\tx".toList] =
    some (["A person on a horse jumps over a broken down airplane .".toList],
      ["A person is outdoors , on a horse .".toList], [0]) := by decide

example : read_snli ["gold\ts1\ts2".toList, "entailment\tfoo".toList] = Option.none := by
  decide

/-- Modelled from the spec: the helper pySplitAux of word tokenization.
The d2l tokenization utility is not among the repository sources; the
spec describes the dataset class as tokenizing text, and word
tokenization is Python str.split with no argument, which splits on runs
of whitespace and produces no empty tokens.  The accumulator holds the
current token reversed. -/
def pySplitAux : List Char → List Char → List (List Char)
  | [], acc => if acc.isEmpty then [] else [acc.reverse]
  | c :: rest, acc =>
    if isSpaceChar c then
      if acc.isEmpty then pySplitAux rest []
      else acc.reverse :: pySplitAux rest []
    else pySplitAux rest (c :: acc)

/-- Modelled from the spec: Python str.split with no argument, splitting
one string into its whitespace-separated tokens. -/
def pySplit (s : List Char) : List (List Char) := pySplitAux s []

/-- Modelled from the spec: d2l word-level tokenize, mapping the
whitespace split over every line. -/
def tokenize (lines : List (List Char)) : List (List (List Char)) :=
  lines.map pySplit

/-- Modelled from the spec: d2l truncate_pad is not among the repository
sources; per the spec, a sequence longer than num_steps is truncated from
the tail end, that is its first num_steps ids are kept, and a shorter one
is right-padded with the padding id up to length num_steps. -/
def truncate_pad (line : List Nat) (num_steps : Nat) (padding_token : Nat) :
    List Nat :=
  if num_steps < line.length then line.take num_steps
  else line ++ List.replicate (num_steps - line.length) padding_token

/-- The unknown token of the vocabulary. -/
def unkTok : List Char := "<unk>".toList

/-- The reserved padding token of the vocabulary. -/
def padTok : List Char := "<pad>".toList

/-- Modelled from the spec: the d2l Vocab class is not among the
repository sources; the spec describes it as a token-to-id mapping with a
frequency cutoff, reserved tokens, and a designated unknown id for
out-of-vocabulary tokens.  The position of a token in idx_to_token is its
id; the unknown token sits at index 0. -/
structure Vocab where
  idx_to_token : List (List Char)
deriving DecidableEq

/-- Modelled from the spec: vocabulary construction keeps, besides the
unknown token and the reserved tokens, exactly those corpus tokens that
occur at least min_freq times in the corpus. -/
def buildVocab (corpus : List (List Char)) (min_freq : Nat)
    (reserved_tokens : List (List Char)) : Vocab :=
  ⟨(unkTok :: reserved_tokens) ++
    corpus.dedup.filter (fun t =>
      decide (min_freq ≤ corpus.count t ∧ t ∉ unkTok :: reserved_tokens))⟩

/-- Modelled from the spec: looking one token up yields its id, and an
out-of-vocabulary token maps to the unknown id 0. -/
def Vocab.getIdx (v : Vocab) (tok : List Char) : Nat :=
  if tok ∈ v.idx_to_token then v.idx_to_token.indexOf tok else 0

/-- Modelled from the spec: looking a list of tokens up maps the single
lookup over the list. -/
def Vocab.lookupLine (v : Vocab) (line : List (List Char)) : List Nat :=
  line.map v.getIdx

/-- The SNLIDataset class: the fields stored by its constructor. -/
structure SNLIDataset where
  num_steps : Nat
  vocab : Vocab
  premises : List (List Nat)
  hypotheses : List (List Nat)
  labels : List Nat
deriving DecidableEq

/-- The _pad method of SNLIDataset: convert each token line to ids
through the stored vocabulary and truncate or pad it to num_steps with
the id of the padding token. -/
def SNLIDataset._pad (vocab : Vocab) (num_steps : Nat)
    (lines : List (List (List Char))) : List (List Nat) :=
  lines.map (fun line =>
    truncate_pad (vocab.lookupLine line) num_steps (vocab.getIdx padTok))

/-- The SNLIDataset constructor: tokenize the premises and the
hypotheses, build the vocabulary from the concatenation of both token
lists with min_freq 5 and the reserved padding token when none is
supplied, store a supplied vocabulary as it is, and store the padded id
sequences and the labels. -/
def SNLIDataset.init
    (dataset : List (List Char) × List (List Char) × List Nat)
    (num_steps : Nat) (vocab : Option Vocab) : SNLIDataset :=
  let all_premise_tokens := tokenize dataset.1
  let all_hypothesis_tokens := tokenize dataset.2.1
  let v :=
    match vocab with
    | Option.none =>
        buildVocab (all_premise_tokens ++ all_hypothesis_tokens).flatten 5 [padTok]
    | some w => w
  { num_steps := num_steps
    vocab := v
    premises := SNLIDataset._pad v num_steps all_premise_tokens
    hypotheses := SNLIDataset._pad v num_steps all_hypothesis_tokens
    labels := dataset.2.2 }

/-- The getitem method of SNLIDataset: the pair of the padded premise and
the padded hypothesis at the index, together with the label at the index;
an out-of-range index raises, modelled by Option.none. -/
def SNLIDataset.getitem (ds : SNLIDataset) (idx : Nat) :
    Option ((List Nat × List Nat) × Nat) :=
  match ds.premises[idx]?, ds.hypotheses[idx]?, ds.labels[idx]? with
  | some p, some h, some l => some ((p, h), l)
  | _, _, _ => Option.none

/-- The len method of SNLIDataset: the number of stored padded
premises. -/
def SNLIDataset.len (ds : SNLIDataset) : Nat := ds.premises.length

/-- load_data_snli on the lines of the two corpus files: parse both files
with read_snli, build the training dataset with no vocabulary, build the
test dataset with the vocabulary of the training dataset, and return both
datasets together with the training vocabulary.  The file download and
the DataLoader wrappers around the two datasets transform no data. -/
def load_data_snli (trainLines testLines : List (List Char))
    (num_steps : Nat) : Option (SNLIDataset × SNLIDataset × Vocab) :=
  match read_snli trainLines, read_snli testLines with
  | some train_data, some test_data =>
    let train_set := SNLIDataset.init train_data num_steps Option.none
    let test_set := SNLIDataset.init test_data num_steps (some train_set.vocab)
    some (train_set, test_set, train_set.vocab)
  | _, _ => Option.none

/-- One example of a dataset as served by getitem: the padded premise
ids, the padded hypothesis ids and the label. -/
def SNLIDataset.items (ds : SNLIDataset) :
    List ((List Nat × List Nat) × Nat) :=
  (ds.premises.zip (ds.hypotheses.zip ds.labels)).map
    (fun x => ((x.1, x.2.1), x.2.2))

/-- Modelled from the spec: the batched iteration of paddle.io.DataLoader
over a dataset, which is external to the repository.  Per the spec, each
batch yields two integer-id matrices of shape batch_size by num_steps and
a label vector of shape batch_size by 1, so a batch is a consecutive
group of exactly batch_size examples. -/
def batches (bs : Nat) (l : List α) : List (List α) :=
  (List.range (l.length / bs)).map (fun k => (l.drop (k * bs)).take bs)

/-- Modelled from the spec: the premise matrix of a batch stacks the
padded premise rows of the examples of the batch. -/
def premiseMatrix (batch : List ((List Nat × List Nat) × Nat)) :
    List (List Nat) :=
  batch.map (fun x => x.1.1)

/-- Modelled from the spec: the hypothesis matrix of a batch stacks the
padded hypothesis rows of the examples of the batch. -/
def hypothesisMatrix (batch : List ((List Nat × List Nat) × Nat)) :
    List (List Nat) :=
  batch.map (fun x => x.1.2)

/-- Modelled from the spec: the label vector of a batch, of shape
batch_size by 1, stacks the one-element label rows of the examples of the
batch. -/
def labelMatrix (batch : List ((List Nat × List Nat) × Nat)) :
    List (List Nat) :=
  batch.map (fun x => [x.2])

/-- A list of rows forms a matrix of the given shape when it has exactly
rows many rows and every row has length cols. -/
def isMatrix (m : List (List Nat)) (rows cols : Nat) : Prop :=
  m.length = rows ∧ ∀ r ∈ m, r.length = cols

/-- The premise and the hypothesis strings contain no run of two or more
consecutive whitespace characters: adjacent characters are never both
whitespace. -/
def noWSRun (s : List Char) : Prop :=
  s.Chain' (fun a b => ¬(isSpaceChar a = true ∧ isSpaceChar b = true))

/-- A string neither starts nor ends with a whitespace character. -/
def noEdgeWS (s : List Char) : Prop :=
  (∀ c, s.head? = some c → isSpaceChar c = false) ∧
    (∀ c, s.getLast? = some c → isSpaceChar c = false)

/-! Helper lemmas. -/

lemma pyMap_length {α β : Type} {f : α → Option β} :
    ∀ {l : List α} {r : List β}, pyMap f l = some r → r.length = l.length := by
  intro l
  induction l with
  | nil =>
    intro r h
    simp only [pyMap, Option.some.injEq] at h
    subst h
    rfl
  | cons a t ih =>
    intro r h
    unfold pyMap at h
    cases hfa : f a with
    | none => rw [hfa] at h; exact absurd h (by simp)
    | some b =>
      rw [hfa] at h
      cases hpt : pyMap f t with
      | none => rw [hpt] at h; exact absurd h (by simp)
      | some bs =>
        rw [hpt] at h
        simp only [Option.some.injEq] at h
        subst h
        simp [ih hpt]

lemma pyMap_getElem? {α β : Type} {f : α → Option β} :
    ∀ {l : List α} {r : List β}, pyMap f l = some r →
      ∀ i : Nat, r[i]? = l[i]?.bind f := by
  intro l
  induction l with
  | nil =>
    intro r h i
    simp only [pyMap, Option.some.injEq] at h
    subst h
    simp
  | cons a t ih =>
    intro r h i
    unfold pyMap at h
    cases hfa : f a with
    | none => rw [hfa] at h; exact absurd h (by simp)
    | some b =>
      rw [hfa] at h
      cases hpt : pyMap f t with
      | none => rw [hpt] at h; exact absurd h (by simp)
      | some bs =>
        rw [hpt] at h
        simp only [Option.some.injEq] at h
        subst h
        cases i with
        | zero => simp [hfa]
        | succ n => simp [ih hpt]

lemma read_snli_inv {lines : List (List Char)} {p h : List (List Char)}
    {l : List Nat} (hr : read_snli lines = some (p, h, l)) :
    pyMap (fun row => (row[1]?).map extract_text) (keptRows lines) = some p ∧
      pyMap (fun row => (row[2]?).map extract_text) (keptRows lines) = some h ∧
      pyMap (fun row => labelSet (row.headD [])) (keptRows lines) = some l := by
  unfold read_snli at hr
  split at hr
  · next premises hypotheses labels h1 h2 h3 =>
    simp only [Option.some.injEq, Prod.mk.injEq] at hr
    obtain ⟨hp, hh, hl⟩ := hr
    subst hp; subst hh; subst hl
    exact ⟨h1, h2, h3⟩
  · exact absurd hr (by simp)

lemma truncate_pad_length (line : List Nat) (n p : Nat) :
    (truncate_pad line n p).length = n := by
  unfold truncate_pad
  split
  · rw [List.length_take]; omega
  · rw [List.length_append, List.length_replicate]; omega

lemma head?_dropWhile_false {α : Type} (p : α → Bool) :
    ∀ (l : List α) (c : α), (l.dropWhile p).head? = some c → p c = false := by
  intro l
  induction l with
  | nil => intro c h; simp [List.dropWhile] at h
  | cons a t ih =>
    intro c h
    rw [List.dropWhile_cons] at h
    by_cases hpa : p a
    · rw [if_pos hpa] at h; exact ih c h
    · rw [if_neg hpa] at h
      simp only [List.head?_cons, Option.some.injEq] at h
      subst h
      simpa using hpa

lemma getLast?_dropWhile_of_ne_nil {α : Type} (p : α → Bool) :
    ∀ (l : List α), l.dropWhile p ≠ [] →
      (l.dropWhile p).getLast? = l.getLast? := by
  intro l
  induction l with
  | nil => intro h; simp [List.dropWhile] at h
  | cons a t ih =>
    intro h
    rw [List.dropWhile_cons] at h ⊢
    by_cases hpa : p a
    · rw [if_pos hpa] at h ⊢
      have ht : t ≠ [] := by
        intro hte
        subst hte
        simp [List.dropWhile] at h
      rw [ih h]
      cases t with
      | nil => exact absurd rfl ht
      | cons b t2 => simp
    · rw [if_neg hpa]

lemma chain_collapseAux :
    ∀ (l : List Char) (st : WSState),
      (collapseAux l st).Chain'
        (fun a b => ¬(isSpaceChar a = true ∧ isSpaceChar b = true)) := by
  intro l
  induction l with
  | nil =>
    intro st
    cases st <;> simp [collapseAux, WSState.flush]
  | cons c rest ih =>
    intro st
    by_cases hc : isSpaceChar c
    · simp only [collapseAux, hc, if_true]
      cases st with
      | none => exact ih _
      | one w => exact ih _
      | many => exact ih _
    · have hcf : isSpaceChar c = false := by simpa using hc
      have hmain :
          (c :: collapseAux rest WSState.none).Chain'
            (fun a b => ¬(isSpaceChar a = true ∧ isSpaceChar b = true)) := by
        rw [List.chain'_cons']
        refine ⟨?_, ih _⟩
        intro y _ hcon
        rw [hcf] at hcon
        exact absurd hcon.1 (by simp)
      cases st with
      | none =>
        simp only [collapseAux, hcf, Bool.false_eq_true, if_false, WSState.flush,
          List.nil_append]
        exact hmain
      | one w =>
        simp only [collapseAux, hcf, Bool.false_eq_true, if_false, WSState.flush,
          List.cons_append, List.nil_append]
        rw [List.chain'_cons]
        refine ⟨?_, hmain⟩
        intro hcon
        rw [hcf] at hcon
        exact absurd hcon.2 (by simp)
      | many =>
        simp only [collapseAux, hcf, Bool.false_eq_true, if_false, WSState.flush,
          List.cons_append, List.nil_append]
        rw [List.chain'_cons]
        refine ⟨?_, hmain⟩
        intro hcon
        rw [hcf] at hcon
        exact absurd hcon.2 (by simp)

lemma mem_collapseAux :
    ∀ (l : List Char) (st : WSState) (c : Char), c ∈ collapseAux l st →
      c = ' ' ∨ c ∈ l ∨ ∃ w, st = WSState.one w ∧ c = w := by
  intro l
  induction l with
  | nil =>
    intro st c h
    cases st with
    | none => simp [collapseAux, WSState.flush] at h
    | one w =>
      simp only [collapseAux, WSState.flush, List.mem_singleton] at h
      exact Or.inr (Or.inr ⟨w, rfl, h⟩)
    | many =>
      simp only [collapseAux, WSState.flush, List.mem_singleton] at h
      exact Or.inl h
  | cons a rest ih =>
    intro st c h
    by_cases ha : isSpaceChar a
    · simp only [collapseAux, ha, if_true] at h
      cases st with
      | none =>
        rcases ih _ c h with h1 | h2 | ⟨w, hw, hcw⟩
        · exact Or.inl h1
        · exact Or.inr (Or.inl (List.mem_cons_of_mem _ h2))
        · injection hw with hwa
          subst hwa
          subst hcw
          exact Or.inr (Or.inl (List.mem_cons_self _ _))
      | one w0 =>
        rcases ih _ c h with h1 | h2 | ⟨w, hw, _⟩
        · exact Or.inl h1
        · exact Or.inr (Or.inl (List.mem_cons_of_mem _ h2))
        · exact absurd hw (by simp)
      | many =>
        rcases ih _ c h with h1 | h2 | ⟨w, hw, _⟩
        · exact Or.inl h1
        · exact Or.inr (Or.inl (List.mem_cons_of_mem _ h2))
        · exact absurd hw (by simp)
    · have haf : isSpaceChar a = false := by simpa using ha
      simp only [collapseAux, haf, Bool.false_eq_true, if_false] at h
      rw [List.mem_append] at h
      rcases h with hfl | hrest
      · cases st with
        | none => simp [WSState.flush] at hfl
        | one w =>
          simp only [WSState.flush, List.mem_singleton] at hfl
          exact Or.inr (Or.inr ⟨w, rfl, hfl⟩)
        | many =>
          simp only [WSState.flush, List.mem_singleton] at hfl
          exact Or.inl hfl
      · rcases List.mem_cons.mp hrest with hca | hcr
        · exact Or.inr (Or.inl (by simp [hca]))
        · rcases ih _ c hcr with h1 | h2 | ⟨w, hw, _⟩
          · exact Or.inl h1
          · exact Or.inr (Or.inl (List.mem_cons_of_mem _ h2))
          · exact absurd hw (by simp)

lemma mem_collapseWS {c : Char} {l : List Char} (h : c ∈ collapseWS l) :
    c = ' ' ∨ c ∈ l := by
  rcases mem_collapseAux l .none c h with h1 | h2 | ⟨w, hw, _⟩
  · exact Or.inl h1
  · exact Or.inr h2
  · exact absurd hw (by simp)

lemma noWSRun_collapseWS (l : List Char) : noWSRun (collapseWS l) :=
  chain_collapseAux l .none

lemma noWSRun_stripWS {s : List Char} (h : noWSRun s) : noWSRun (stripWS s) := by
  unfold noWSRun at h ⊢
  unfold stripWS
  have h1 := h.suffix (List.dropWhile_suffix isSpaceChar)
  have h2 : List.Chain' (fun a b => ¬(isSpaceChar a = true ∧ isSpaceChar b = true))
      (List.dropWhile isSpaceChar s).reverse := by
    rw [List.chain'_reverse]
    exact h1.imp (fun a b hab hcon => hab ⟨hcon.2, hcon.1⟩)
  have h3 := h2.suffix (List.dropWhile_suffix isSpaceChar)
  rw [List.chain'_reverse]
  exact h3.imp (fun a b hab hcon => hab ⟨hcon.2, hcon.1⟩)

lemma mem_stripWS {c : Char} {s : List Char} (h : c ∈ stripWS s) : c ∈ s := by
  unfold stripWS at h
  rw [List.mem_reverse] at h
  have h2 := (List.dropWhile_suffix _).subset h
  rw [List.mem_reverse] at h2
  exact (List.dropWhile_suffix _).subset h2

lemma noEdgeWS_stripWS (s : List Char) : noEdgeWS (stripWS s) := by
  constructor
  · intro c hc
    unfold stripWS at hc
    rw [List.head?_reverse] at hc
    have hY : ((s.dropWhile isSpaceChar).reverse.dropWhile isSpaceChar) ≠ [] := by
      intro he
      rw [he] at hc
      exact absurd hc (by simp)
    rw [getLast?_dropWhile_of_ne_nil _ _ hY, List.getLast?_reverse] at hc
    exact head?_dropWhile_false _ _ _ hc
  · intro c hc
    unfold stripWS at hc
    rw [List.getLast?_reverse] at hc
    exact head?_dropWhile_false _ _ _ hc

lemma noWSRun_extract_text (s : List Char) : noWSRun (extract_text s) :=
  noWSRun_stripWS (noWSRun_collapseWS _)

lemma noEdgeWS_extract_text (s : List Char) : noEdgeWS (extract_text s) :=
  noEdgeWS_stripWS _

lemma extract_text_no_paren (s : List Char) :
    '(' ∉ extract_text s ∧ ')' ∉ extract_text s := by
  constructor <;> intro hmem
  · have h1 := mem_stripWS hmem
    rcases mem_collapseWS h1 with h2 | h2
    · exact absurd h2 (by decide)
    · have h3 := (List.mem_filter.mp h2).1
      have h4 := (List.mem_filter.mp h3).2
      simp at h4
  · have h1 := mem_stripWS hmem
    rcases mem_collapseWS h1 with h2 | h2
    · exact absurd h2 (by decide)
    · have h4 := (List.mem_filter.mp h2).2
      simp at h4

lemma pad_row_length {v : Vocab} {n : Nat} {lines : List (List (List Char))}
    {r : List Nat} (h : r ∈ SNLIDataset._pad v n lines) : r.length = n := by
  unfold SNLIDataset._pad at h
  rcases List.mem_map.mp h with ⟨line, _, hline⟩
  rw [← hline]
  exact truncate_pad_length _ _ _

lemma batches_spec {α : Type} {bs : Nat} {l : List α} {b : List α}
    (h : b ∈ batches bs l) : b.length = bs ∧ ∀ x ∈ b, x ∈ l := by
  unfold batches at h
  rcases List.mem_map.mp h with ⟨k, hk, hb⟩
  rw [List.mem_range] at hk
  subst hb
  constructor
  · rw [List.length_take, List.length_drop]
    have h1 : k + 1 ≤ l.length / bs := hk
    have h2 : (k + 1) * bs ≤ (l.length / bs) * bs :=
      Nat.mul_le_mul_right _ h1
    have h3 : (l.length / bs) * bs ≤ l.length := Nat.div_mul_le_self _ _
    have h4 : k * bs + bs ≤ l.length := by
      rw [Nat.succ_mul] at h2
      omega
    omega
  · intro x hx
    exact List.drop_subset _ _ (List.take_subset _ _ hx)

/-! Claim theorems. -/

/-- C1, counterexample: the claim that every malformed row is silently
dropped with no error raised is false.  On a file whose single data row
carries the recognized label entailment but only two tab-separated
fields, read_snli raises an IndexError, modelled by Option.none, instead
of returning the empty triple that dropping the row would produce. -/
theorem c1_counterexample :
    read_snli ["gold_label\tsentence1\tsentence2".toList,
      "entailment\tA person .".toList] = Option.none ∧
    read_snli ["gold_label\tsentence1\tsentence2".toList,
      "entailment\tA person .".toList] ≠
      some ([], [], []) := by
  constructor
  · decide
  · decide

/-- C1, amended: any row whose first tab-separated field is not a
recognized label is silently dropped by read_snli: it contributes nothing
to the returned premises, hypotheses, or labels, and no error is raised
for it; a row whose label is recognized but which lacks a second or a
third field instead makes the call raise. -/
theorem c1_thm (header bad : List Char) (l1 l2 : List (List Char))
    (hbad : labelSet ((splitTab bad).headD []) = Option.none) :
    read_snli (header :: (l1 ++ bad :: l2)) = read_snli (header :: (l1 ++ l2)) := by
  have hkept : keptRows (header :: (l1 ++ bad :: l2)) =
      keptRows (header :: (l1 ++ l2)) := by
    unfold keptRows
    simp only [List.drop_succ_cons, List.drop_zero]
    rw [List.map_append, List.map_append, List.map_cons]
    rw [List.filter_append, List.filter_append, List.filter_cons]
    rw [hbad]
    simp
  unfold read_snli
  rw [hkept]

/-- C1, witness: inserting a row with the unrecognized label nolabel
leaves the parse unchanged. -/
theorem c1_witness :
    labelSet ((splitTab "nolabel\tx\ty".toList).headD []) = Option.none ∧
    read_snli ["h".toList, "nolabel\tx\ty".toList, "entailment\ta\tb".toList] =
      read_snli ["h".toList, "entailment\ta\tb".toList] :=
  ⟨by decide,
    c1_thm "h".toList "nolabel\tx\ty".toList []
      ["entailment\ta\tb".toList] (by decide)⟩

/-- C2: read_snli skips the header line; each remaining tab-separated
row's first field is the textual label, its second field the premise and
its third field the hypothesis; exactly the rows whose label is
recognized are kept, with entailment, contradiction and neutral encoded
as 0, 1 and 2; and the three returned sequences are parallel, of length
the number of kept rows. -/
theorem c2_thm (lines : List (List Char)) (prem hyp : List (List Char))
    (labs : List Nat) (hr : read_snli lines = some (prem, hyp, labs)) :
    prem.length = (keptRows lines).length ∧
    hyp.length = (keptRows lines).length ∧
    labs.length = (keptRows lines).length ∧
    (∀ i : Nat, prem[i]? =
      (keptRows lines)[i]?.bind (fun row => (row[1]?).map extract_text)) ∧
    (∀ i : Nat, hyp[i]? =
      (keptRows lines)[i]?.bind (fun row => (row[2]?).map extract_text)) ∧
    (∀ i : Nat, labs[i]? =
      (keptRows lines)[i]?.bind (fun row => labelSet (row.headD []))) ∧
    labelSet "entailment".toList = some 0 ∧
    labelSet "contradiction".toList = some 1 ∧
    labelSet "neutral".toList = some 2 := by
  obtain ⟨h1, h2, h3⟩ := read_snli_inv hr
  exact ⟨pyMap_length h1, pyMap_length h2, pyMap_length h3,
    pyMap_getElem? h1, pyMap_getElem? h2, pyMap_getElem? h3,
    by decide, by decide, by decide⟩

/-- C2, witness: a file with one kept row and one dropped row. -/
theorem c2_witness :
    (["a b".toList] : List (List Char)).length =
      (keptRows ["gold\ts1\ts2".toList, "neutral\ta b\tc d".toList,
        "weird\tx\ty".toList]).length ∧
    ([2] : List Nat)[0]? =
      (keptRows ["gold\ts1\ts2".toList, "neutral\ta b\tc d".toList,
        "weird\tx\ty".toList])[0]?.bind (fun row => labelSet (row.headD [])) := by
  have h := c2_thm
    ["gold\ts1\ts2".toList, "neutral\ta b\tc d".toList, "weird\tx\ty".toList]
    ["a b".toList] ["c d".toList] [2] (by decide)
  exact ⟨h.1, h.2.2.2.2.2.1 0⟩

/-- C3: every sequence processed by the _pad method of SNLIDataset comes
out with length exactly num_steps: a longer id sequence is truncated to
its first num_steps ids and a shorter one is right-padded with the
vocabulary's padding id. -/
theorem c3_thm (vocab : Vocab) (num_steps : Nat)
    (lines : List (List (List Char))) (i : Nat) (line : List (List Char))
    (hi : lines[i]? = some line) :
    (SNLIDataset._pad vocab num_steps lines)[i]? =
      some (truncate_pad (vocab.lookupLine line) num_steps
        (vocab.getIdx padTok)) ∧
    (truncate_pad (vocab.lookupLine line) num_steps
      (vocab.getIdx padTok)).length = num_steps ∧
    (num_steps < (vocab.lookupLine line).length →
      truncate_pad (vocab.lookupLine line) num_steps (vocab.getIdx padTok) =
        (vocab.lookupLine line).take num_steps) ∧
    ((vocab.lookupLine line).length ≤ num_steps →
      truncate_pad (vocab.lookupLine line) num_steps (vocab.getIdx padTok) =
        vocab.lookupLine line ++
          List.replicate (num_steps - (vocab.lookupLine line).length)
            (vocab.getIdx padTok)) := by
  refine ⟨?_, truncate_pad_length _ _ _, ?_, ?_⟩
  · unfold SNLIDataset._pad
    rw [List.getElem?_map, hi]
    rfl
  · intro hlt
    unfold truncate_pad
    rw [if_pos hlt]
  · intro hle
    unfold truncate_pad
    rw [if_neg (by omega)]

/-- C3, witness: one line of three tokens padded to five steps. -/
theorem c3_witness :
    (SNLIDataset._pad (Vocab.mk ["<unk>".toList, "<pad>".toList]) 5
      [["a".toList, "b".toList, "c".toList]])[0]? =
      some (truncate_pad
        ((Vocab.mk ["<unk>".toList, "<pad>".toList]).lookupLine
          ["a".toList, "b".toList, "c".toList]) 5
        ((Vocab.mk ["<unk>".toList, "<pad>".toList]).getIdx padTok)) ∧
    (truncate_pad
      ((Vocab.mk ["<unk>".toList, "<pad>".toList]).lookupLine
        ["a".toList, "b".toList, "c".toList]) 5
      ((Vocab.mk ["<unk>".toList, "<pad>".toList]).getIdx padTok)).length = 5 :=
  have h := c3_thm (Vocab.mk ["<unk>".toList, "<pad>".toList]) 5
    [["a".toList, "b".toList, "c".toList]] 0
    ["a".toList, "b".toList, "c".toList] (by decide)
  ⟨h.1, h.2.1⟩

/-- C4: padding a token-id sequence of length at most num_steps yields
exactly the original ids followed only by padding ids, and truncating the
padded result at the original length recovers the original sequence. -/
theorem c4_thm (ids : List Nat) (num_steps pid : Nat)
    (hle : ids.length ≤ num_steps) :
    truncate_pad ids num_steps pid =
      ids ++ List.replicate (num_steps - ids.length) pid ∧
    (truncate_pad ids num_steps pid).take ids.length = ids ∧
    (truncate_pad ids num_steps pid).drop ids.length =
      List.replicate (num_steps - ids.length) pid := by
  have he : truncate_pad ids num_steps pid =
      ids ++ List.replicate (num_steps - ids.length) pid := by
    unfold truncate_pad
    rw [if_neg (by omega)]
  refine ⟨he, ?_, ?_⟩
  · rw [he, List.take_left]
  · rw [he, List.drop_left]

/-- C4, witness: the two-element sequence consisting of 7 and 8 padded to
four steps with padding id 9. -/
theorem c4_witness :
    truncate_pad [7, 8] 4 9 = [7, 8] ++ List.replicate 2 9 ∧
    (truncate_pad [7, 8] 4 9).take 2 = [7, 8] ∧
    (truncate_pad [7, 8] 4 9).drop 2 = List.replicate 2 9 :=
  c4_thm [7, 8] 4 9 (by decide)

lemma init_vocab_none (d : List (List Char) × List (List Char) × List Nat)
    (n : Nat) :
    (SNLIDataset.init d n Option.none).vocab =
      buildVocab ((tokenize d.1 ++ tokenize d.2.1).flatten) 5 [padTok] := rfl

lemma init_vocab_some (d : List (List Char) × List (List Char) × List Nat)
    (n : Nat) (w : Vocab) : (SNLIDataset.init d n (some w)).vocab = w := rfl

lemma mem_buildVocab (corpus : List (List Char)) (tok : List Char) :
    tok ∈ (buildVocab corpus 5 [padTok]).idx_to_token ↔
      5 ≤ corpus.count tok ∨ tok = unkTok ∨ tok = padTok := by
  unfold buildVocab
  constructor
  · intro h
    rcases List.mem_append.mp h with h1 | h2
    · rcases List.mem_cons.mp h1 with h3 | h3
      · exact Or.inr (Or.inl h3)
      · exact Or.inr (Or.inr (List.mem_singleton.mp h3))
    · have h5 := List.mem_filter.mp h2
      have h6 := of_decide_eq_true h5.2
      exact Or.inl h6.1
  · intro h
    rcases h with hcnt | hu | hp
    · by_cases hres : tok = unkTok ∨ tok = padTok
      · refine List.mem_append.mpr (Or.inl ?_)
        rcases hres with h | h
        · exact List.mem_cons.mpr (Or.inl h)
        · exact List.mem_cons.mpr (Or.inr (List.mem_singleton.mpr h))
      · refine List.mem_append.mpr (Or.inr ?_)
        refine List.mem_filter.mpr
          ⟨List.mem_dedup.mpr (List.count_pos_iff.mp (by omega)), ?_⟩
        refine decide_eq_true ⟨hcnt, ?_⟩
        intro hmem
        rcases List.mem_cons.mp hmem with h | h
        · exact hres (Or.inl h)
        · exact hres (Or.inr (List.mem_singleton.mp h))
    · exact List.mem_append.mpr (Or.inl (List.mem_cons.mpr (Or.inl hu)))
    · exact List.mem_append.mpr
        (Or.inl (List.mem_cons.mpr (Or.inr (List.mem_singleton.mpr hp))))

/-- C5: an SNLIDataset constructed with no vocabulary builds it from the
tokenized union of all premises and all hypotheses, keeping exactly the
tokens occurring at least 5 times in that union, besides the reserved
padding token and the unknown token. -/
theorem c5_thm (premises hypotheses : List (List Char)) (labels : List Nat)
    (num_steps : Nat) (tok : List Char) :
    padTok ∈ (SNLIDataset.init (premises, hypotheses, labels) num_steps
      Option.none).vocab.idx_to_token ∧
    (tok ∈ (SNLIDataset.init (premises, hypotheses, labels) num_steps
        Option.none).vocab.idx_to_token ↔
      5 ≤ ((tokenize premises ++ tokenize hypotheses).flatten).count tok ∨
        tok = unkTok ∨ tok = padTok) := by
  rw [init_vocab_none]
  exact ⟨(mem_buildVocab _ _).mpr (Or.inr (Or.inr rfl)), mem_buildVocab _ _⟩

/-- C6: load_data_snli builds the vocabulary once, from the training
split only, and injects it unchanged into the evaluation dataset, and an
SNLIDataset given a pre-built vocabulary stores it as it is. -/
theorem c6_thm (trainLines testLines : List (List Char)) (n : Nat)
    (tr te : SNLIDataset) (v : Vocab)
    (hl : load_data_snli trainLines testLines n = some (tr, te, v)) :
    te.vocab = tr.vocab ∧ v = tr.vocab ∧
    (∃ td, read_snli trainLines = some td ∧
      tr.vocab =
        buildVocab ((tokenize td.1 ++ tokenize td.2.1).flatten) 5 [padTok]) ∧
    (∀ (d : List (List Char) × List (List Char) × List Nat) (m : Nat)
      (w : Vocab), (SNLIDataset.init d m (some w)).vocab = w) := by
  unfold load_data_snli at hl
  split at hl
  · next td ed h1 h2 =>
    simp only [Option.some.injEq, Prod.mk.injEq] at hl
    obtain ⟨htr, hte, hv⟩ := hl
    subst htr
    subst hte
    subst hv
    exact ⟨init_vocab_some _ _ _, rfl,
      ⟨td, h1, by rw [init_vocab_none]⟩,
      fun d m w => init_vocab_some d m w⟩
  · exact absurd hl (by simp)

/-- C6, witness: two tiny corpus files through load_data_snli. -/
theorem c6_witness :
    (SNLIDataset.init (["e".toList], ["f g".toList], [2]) 3
      (some (SNLIDataset.init (["a b".toList], ["c d".toList], [0]) 3
        Option.none).vocab)).vocab =
      (SNLIDataset.init (["a b".toList], ["c d".toList], [0]) 3
        Option.none).vocab :=
  (c6_thm ["h".toList, "entailment\ta b\tc d".toList]
    ["h".toList, "neutral\te\tf g".toList] 3
    (SNLIDataset.init (["a b".toList], ["c d".toList], [0]) 3 Option.none)
    (SNLIDataset.init (["e".toList], ["f g".toList], [2]) 3
      (some (SNLIDataset.init (["a b".toList], ["c d".toList], [0]) 3
        Option.none).vocab))
    (SNLIDataset.init (["a b".toList], ["c d".toList], [0]) 3
      Option.none).vocab (by decide)).1

lemma init_len (d : List (List Char) × List (List Char) × List Nat) (n : Nat)
    (v : Option Vocab) : (SNLIDataset.init d n v).len = d.1.length := by
  unfold SNLIDataset.len SNLIDataset.init SNLIDataset._pad tokenize
  simp

/-- C7: on a dataset built from parallel input sequences, len reports the
number of input examples, indexed access at every idx below len returns
the pair of the padded premise and the padded hypothesis at idx together
with the label at idx, and empty input yields a dataset of length
zero. -/
theorem c7_thm (premises hypotheses : List (List Char)) (labels : List Nat)
    (num_steps : Nat) (vocab : Option Vocab)
    (hh : hypotheses.length = premises.length)
    (hlen : labels.length = premises.length) :
    (SNLIDataset.init (premises, hypotheses, labels) num_steps vocab).len =
      premises.length ∧
    (∀ (n : Nat) (w : Option Vocab),
      (SNLIDataset.init (([] : List (List Char)), ([] : List (List Char)),
        ([] : List Nat)) n w).len = 0) ∧
    (∀ idx : Nat,
      idx < (SNLIDataset.init (premises, hypotheses, labels) num_steps
        vocab).len →
      ∃ pi hi li,
        (SNLIDataset.init (premises, hypotheses, labels) num_steps
          vocab).premises[idx]? = some pi ∧
        (SNLIDataset.init (premises, hypotheses, labels) num_steps
          vocab).hypotheses[idx]? = some hi ∧
        labels[idx]? = some li ∧
        (SNLIDataset.init (premises, hypotheses, labels) num_steps
          vocab).getitem idx = some ((pi, hi), li)) := by
  refine ⟨init_len _ _ _, fun n w => init_len _ _ _, ?_⟩
  intro idx hidx
  rw [init_len] at hidx
  have hp : idx < (SNLIDataset.init (premises, hypotheses, labels) num_steps
      vocab).premises.length := by
    unfold SNLIDataset.init SNLIDataset._pad tokenize
    simpa using hidx
  have hhy : idx < (SNLIDataset.init (premises, hypotheses, labels) num_steps
      vocab).hypotheses.length := by
    unfold SNLIDataset.init SNLIDataset._pad tokenize
    simpa [hh] using hidx
  have hidx2 : idx < premises.length := hidx
  have hla : idx < labels.length := by omega
  refine ⟨(SNLIDataset.init (premises, hypotheses, labels) num_steps
      vocab).premises[idx],
    (SNLIDataset.init (premises, hypotheses, labels) num_steps
      vocab).hypotheses[idx],
    labels[idx], List.getElem?_eq_getElem hp, List.getElem?_eq_getElem hhy,
    List.getElem?_eq_getElem hla, ?_⟩
  have hlabels : (SNLIDataset.init (premises, hypotheses, labels) num_steps
      vocab).labels = labels := rfl
  unfold SNLIDataset.getitem
  rw [List.getElem?_eq_getElem hp, List.getElem?_eq_getElem hhy, hlabels,
    List.getElem?_eq_getElem hla]

/-- C7, witness: a one-example dataset has length one, and the empty
dataset has length zero. -/
theorem c7_witness :
    (SNLIDataset.init (["a".toList], ["b".toList], [0]) 1 Option.none).len = 1 ∧
    (SNLIDataset.init (([] : List (List Char)), ([] : List (List Char)),
      ([] : List Nat)) 1 Option.none).len = 0 :=
  have h := c7_thm ["a".toList] ["b".toList] [0] 1 Option.none
    (by decide) (by decide)
  ⟨h.1, h.2.1 1 Option.none⟩

lemma mem_pyMap_extract {kept : List (List (List Char))}
    {r : List (List Char)} {j : Nat}
    (hpm : pyMap (fun row => (row[j]?).map extract_text) kept = some r)
    {s : List Char} (hs : s ∈ r) : ∃ t, s = extract_text t := by
  rcases List.mem_iff_getElem?.mp hs with ⟨i, hi⟩
  have hg := pyMap_getElem? hpm i
  rw [hi] at hg
  cases hk : kept[i]? with
  | none => rw [hk] at hg; exact absurd hg (by simp)
  | some row =>
    rw [hk] at hg
    simp only [Option.some_bind] at hg
    cases ht : row[j]? with
    | none => rw [ht] at hg; exact absurd hg (by simp)
    | some t =>
      rw [ht] at hg
      simp only [Option.map_some', Option.some.injEq] at hg
      exact ⟨t, hg⟩

/-- C8: every premise and hypothesis string returned by read_snli
contains no parenthesis character and no run of two or more consecutive
whitespace characters, and the example line of the spec parses to the
stated premise, hypothesis and label 0. -/
theorem c8_thm (lines : List (List Char)) (prem hyp : List (List Char))
    (labs : List Nat) (hr : read_snli lines = some (prem, hyp, labs)) :
    (∀ s ∈ prem, '(' ∉ s ∧ ')' ∉ s ∧ noWSRun s) ∧
    (∀ s ∈ hyp, '(' ∉ s ∧ ')' ∉ s ∧ noWSRun s) ∧
    read_snli
      ["gold_label\ts1_parse\ts2_parse".toList,
       "entailment\tA person on a horse jumps ( over ) a broken down airplane .\tA person is outdoors , on a horse .\tmore".toList] =
      some (["A person on a horse jumps over a broken down airplane .".toList],
        ["A person is outdoors , on a horse .".toList], [0]) := by
  obtain ⟨h1, h2, _⟩ := read_snli_inv hr
  refine ⟨?_, ?_, by decide⟩
  · intro s hs
    rcases mem_pyMap_extract h1 hs with ⟨t, rfl⟩
    exact ⟨(extract_text_no_paren t).1, (extract_text_no_paren t).2,
      noWSRun_extract_text t⟩
  · intro s hs
    rcases mem_pyMap_extract h2 hs with ⟨t, rfl⟩
    exact ⟨(extract_text_no_paren t).1, (extract_text_no_paren t).2,
      noWSRun_extract_text t⟩

/-- C8, witness: the cleaned premise of a concrete file has no
parenthesis and no whitespace run. -/
theorem c8_witness :
    '(' ∉ "a b".toList ∧ ')' ∉ "a b".toList ∧ noWSRun "a b".toList :=
  (c8_thm ["h".toList, "entailment\t( a ( b ) )\tc  d\tz".toList]
    ["a b".toList] ["c d".toList] [0] (by decide)).1 "a b".toList
    (by decide)

lemma init_fields (d : List (List Char) × List (List Char) × List Nat)
    (n : Nat) (w : Option Vocab) :
    (SNLIDataset.init d n w).premises =
      SNLIDataset._pad (SNLIDataset.init d n w).vocab n (tokenize d.1) ∧
    (SNLIDataset.init d n w).hypotheses =
      SNLIDataset._pad (SNLIDataset.init d n w).vocab n (tokenize d.2.1) :=
  ⟨rfl, rfl⟩

lemma batch_shapes {ds : SNLIDataset} {n bs : Nat}
    (hp : ∀ r ∈ ds.premises, r.length = n)
    (hh : ∀ r ∈ ds.hypotheses, r.length = n)
    {b : List ((List Nat × List Nat) × Nat)} (hb : b ∈ batches bs ds.items) :
    isMatrix (premiseMatrix b) bs n ∧ isMatrix (hypothesisMatrix b) bs n ∧
      isMatrix (labelMatrix b) bs 1 := by
  obtain ⟨hlen, hsub⟩ := batches_spec hb
  refine ⟨⟨by simp [premiseMatrix, hlen], ?_⟩,
    ⟨by simp [hypothesisMatrix, hlen], ?_⟩,
    ⟨by simp [labelMatrix, hlen], ?_⟩⟩
  · intro r hr
    rcases List.mem_map.mp hr with ⟨x, hx, hxr⟩
    have hxi := hsub x hx
    unfold SNLIDataset.items at hxi
    rcases List.mem_map.mp hxi with ⟨⟨a, hz, lb⟩, hy, hxy⟩
    have ha := (List.of_mem_zip hy).1
    rw [← hxr, ← hxy]
    exact hp a ha
  · intro r hr
    rcases List.mem_map.mp hr with ⟨x, hx, hxr⟩
    have hxi := hsub x hx
    unfold SNLIDataset.items at hxi
    rcases List.mem_map.mp hxi with ⟨⟨a, hz, lb⟩, hy, hxy⟩
    have hz2 := (List.of_mem_zip (List.of_mem_zip hy).2).1
    rw [← hxr, ← hxy]
    exact hh hz hz2
  · intro r hr
    rcases List.mem_map.mp hr with ⟨x, hx, hxr⟩
    rw [← hxr]
    rfl

/-- C9: every batch drawn from the iterators of load_data_snli consists
of a premise matrix and a hypothesis matrix of shape batch_size by
num_steps and a label vector of shape batch_size by 1. -/
theorem c9_thm (trainLines testLines : List (List Char)) (n bs : Nat)
    (tr te : SNLIDataset) (v : Vocab)
    (hl : load_data_snli trainLines testLines n = some (tr, te, v)) :
    (∀ b ∈ batches bs tr.items,
      isMatrix (premiseMatrix b) bs n ∧ isMatrix (hypothesisMatrix b) bs n ∧
        isMatrix (labelMatrix b) bs 1) ∧
    (∀ b ∈ batches bs te.items,
      isMatrix (premiseMatrix b) bs n ∧ isMatrix (hypothesisMatrix b) bs n ∧
        isMatrix (labelMatrix b) bs 1) := by
  unfold load_data_snli at hl
  split at hl
  · next td ed h1 h2 =>
    simp only [Option.some.injEq, Prod.mk.injEq] at hl
    obtain ⟨htr, hte, hv⟩ := hl
    subst htr
    subst hte
    constructor <;> intro b hb
    · refine batch_shapes ?_ ?_ hb
      · intro r hr
        rw [(init_fields td n Option.none).1] at hr
        exact pad_row_length hr
      · intro r hr
        rw [(init_fields td n Option.none).2] at hr
        exact pad_row_length hr
    · refine batch_shapes ?_ ?_ hb
      · intro r hr
        rw [(init_fields ed n _).1] at hr
        exact pad_row_length hr
      · intro r hr
        rw [(init_fields ed n _).2] at hr
        exact pad_row_length hr
  · exact absurd hl (by simp)

/-- C9, witness: the single batch of a one-example training corpus with
batch size 1 and two steps. -/
theorem c9_witness :
    isMatrix (premiseMatrix [(([0, 0], [0, 0]), 0)]) 1 2 ∧
    isMatrix (hypothesisMatrix [(([0, 0], [0, 0]), 0)]) 1 2 ∧
    isMatrix (labelMatrix [(([0, 0], [0, 0]), 0)]) 1 1 :=
  (c9_thm ["h".toList, "entailment\ta b\tc d".toList]
    ["h".toList, "neutral\te\tf g".toList] 2 1
    (SNLIDataset.init (["a b".toList], ["c d".toList], [0]) 2 Option.none)
    (SNLIDataset.init (["e".toList], ["f g".toList], [2]) 2
      (some (SNLIDataset.init (["a b".toList], ["c d".toList], [0]) 2
        Option.none).vocab))
    (SNLIDataset.init (["a b".toList], ["c d".toList], [0]) 2
      Option.none).vocab (by decide)).1
    [(([0, 0], [0, 0]), 0)] (by decide)

/-- C10: every premise and hypothesis string returned by read_snli has no
leading and no trailing whitespace, because extract_text strips the
string after cleaning it. -/
theorem c10_thm (lines : List (List Char)) (prem hyp : List (List Char))
    (labs : List Nat) (hr : read_snli lines = some (prem, hyp, labs)) :
    (∀ s ∈ prem, noEdgeWS s) ∧ (∀ s ∈ hyp, noEdgeWS s) := by
  obtain ⟨h1, h2, _⟩ := read_snli_inv hr
  constructor
  · intro s hs
    rcases mem_pyMap_extract h1 hs with ⟨t, rfl⟩
    exact noEdgeWS_extract_text t
  · intro s hs
    rcases mem_pyMap_extract h2 hs with ⟨t, rfl⟩
    exact noEdgeWS_extract_text t

/-- C10, witness: the premise extracted from a field with leading and
trailing whitespace has clean edges. -/
theorem c10_witness : noEdgeWS "a b".toList :=
  (c10_thm ["h".toList, "entailment\t  a b \tc\tz".toList]
    ["a b".toList] ["c".toList] [0] (by decide)).1 "a b".toList (by decide)

end SNLI
